import Mathlib

/-!
Shallow embedding of the NEAR room-booking contract
(`src/contract/src/lib.rs`) and verification of its specification.

The contract state holds two keyed stores:
a `LookupMap<AccountId, Vec<RoomId>>` (the Owner Index) and a
`HashMap<RoomId, Room>` (the Room Store).  Both are modelled as
association lists whose `insert` replaces the value at an existing key,
matching the replace-on-insert semantics of both Rust containers.
The `expect("ERR_NOT_FOUND_ROOM")` panic in the listing operation is
modelled by an `Option` result: `none` is the fatal abort.
-/

namespace NearBooking

abbrev RoomId := String

abbrev CheckInDate := String

abbrev AccountId := String

/-- `UsageStatus` from the source: `Available`, or `Stay { check_in_date }`. -/
inductive UsageStatus where
  | Available : UsageStatus
  | Stay (check_in_date : CheckInDate) : UsageStatus
deriving DecidableEq, Repr

/-- The public read model returned by the listing operation. -/
structure RegisteredRoom where
  name : String
  image : String
  beds : Nat
  description : String
  location : String
  price : Nat
  status : UsageStatus
deriving DecidableEq, Repr

/-- The authoritative on-chain record stored in the Room Store. -/
structure Room where
  name : String
  owner_id : AccountId
  image : String
  beds : Nat
  description : String
  location : String
  price : Nat
  status : UsageStatus
  booked_info : List (CheckInDate × AccountId)
deriving DecidableEq, Repr

/-- Lookup in an association list; models `LookupMap::get` / `HashMap::get`. -/
def lookupA {V : Type} : List (String × V) → String → Option V
  | [], _ => none
  | (k, v) :: rest, key => if k = key then some v else lookupA rest key

/-- Insert into an association list, replacing the value at an existing key;
models `LookupMap::insert` / `HashMap::insert`. -/
def insertA {V : Type} : List (String × V) → String → V → List (String × V)
  | [], key, val => [(key, val)]
  | (k, v) :: rest, key, val =>
      if k = key then (key, val) :: rest else (k, v) :: insertA rest key val

/-- The contract state: Owner Index (`rooms_per_owner`) and Room Store
(`rooms_by_id`). -/
structure Contract where
  rooms_per_owner : List (AccountId × List RoomId)
  rooms_by_id : List (RoomId × Room)
deriving DecidableEq, Repr

/-- `Default for Contract`: both stores empty. -/
def Contract.default : Contract :=
  { rooms_per_owner := [], rooms_by_id := [] }

/-- The derived room identifier: `format!("{}{}", owner_id, name)`,
plain concatenation with no separator. -/
def roomIdOf (owner_id name : String) : RoomId :=
  owner_id ++ name

/-- `add_room_to_owner`.  The signer account (owner) is made an explicit
argument, standing for `env::signer_account_id()`. -/
def Contract.add_room_to_owner (self : Contract) (signer_account_id : AccountId)
    (name : String) (image : String) (beds : Nat) (description : String)
    (location : String) (price : Nat) : Contract :=
  let owner_id := signer_account_id
  let room_id := roomIdOf owner_id name
  let new_room : Room :=
    { owner_id := owner_id
      name := name
      image := image
      beds := beds
      description := description
      location := location
      price := price
      status := UsageStatus.Available
      booked_info := [] }
  let rooms_by_id := insertA self.rooms_by_id room_id new_room
  let rooms_per_owner :=
    match lookupA self.rooms_per_owner owner_id with
    | some rooms => insertA self.rooms_per_owner owner_id (rooms ++ [room_id])
    | none => insertA self.rooms_per_owner owner_id [room_id]
  { rooms_per_owner := rooms_per_owner, rooms_by_id := rooms_by_id }

/-- `exists`: membership of the derived identifier in the Room Store. -/
def Contract.«exists» (self : Contract) (owner_id : AccountId)
    (room_name : String) : Bool :=
  let room_id := roomIdOf owner_id room_name
  (lookupA self.rooms_by_id room_id).isSome

/-- The status copy performed in the listing loop's `match`. -/
def cloneStatus : UsageStatus → UsageStatus
  | UsageStatus.Available => UsageStatus.Available
  | UsageStatus.Stay check_in_date => UsageStatus.Stay check_in_date

/-- Construction of a `RegisteredRoom` from a fetched `Room`, as in the
body of the listing loop. -/
def toRegisteredRoom (room : Room) : RegisteredRoom :=
  { name := room.name
    beds := room.beds
    image := room.image
    description := room.description
    location := room.location
    price := room.price
    status := cloneStatus room.status }

/-- The listing loop: fetch each identifier from the Room Store and project
it; a missing identifier is the `expect("ERR_NOT_FOUND_ROOM")` abort,
modelled as `none`. -/
def projectRooms (rooms_by_id : List (RoomId × Room)) :
    List RoomId → Option (List RegisteredRoom)
  | [] => some []
  | room_id :: rest =>
      match lookupA rooms_by_id room_id with
      | none => none
      | some room =>
          match projectRooms rooms_by_id rest with
          | none => none
          | some rs => some (toRegisteredRoom room :: rs)

/-- `get_rooms_registered_by_owner`: `none` is the fatal
`ERR_NOT_FOUND_ROOM` abort, `some l` a normal return of `l`. -/
def Contract.get_rooms_registered_by_owner (self : Contract)
    (owner_id : AccountId) : Option (List RegisteredRoom) :=
  match lookupA self.rooms_per_owner owner_id with
  | some rooms => projectRooms self.rooms_by_id rooms
  | none => some []

/-- A recorded call to `add_room_to_owner`, with the signer made explicit. -/
structure Call where
  signer : AccountId
  name : String
  image : String
  beds : Nat
  description : String
  location : String
  price : Nat
deriving DecidableEq, Repr

/-- Execute one recorded registration call. -/
def applyCall (s : Contract) (c : Call) : Contract :=
  s.add_room_to_owner c.signer c.name c.image c.beds c.description c.location c.price

/-- Execute a sequence of registration calls from a given state. -/
def applyCalls (s : Contract) (cs : List Call) : Contract :=
  cs.foldl applyCall s

/-- States reachable from the default (empty) state by `add_room_to_owner`
calls, which are the only mutating entry points. -/
inductive Reachable : Contract → Prop where
  | default : Reachable Contract.default
  | step (s : Contract) (signer name image : String) (beds : Nat)
      (description location : String) (price : Nat) :
      Reachable s →
      Reachable (s.add_room_to_owner signer name image beds description location price)

/-- Every identifier in any Owner Index list resolves in the Room Store. -/
def OwnerIndexConsistent (s : Contract) : Prop :=
  ∀ (owner : AccountId) (rooms : List RoomId),
    lookupA s.rooms_per_owner owner = some rooms →
    ∀ room_id ∈ rooms, (lookupA s.rooms_by_id room_id).isSome = true

/-- The `Room` record built by `add_room_to_owner`. -/
def newRoom (signer name image : String) (beds : Nat)
    (description location : String) (price : Nat) : Room :=
  { owner_id := signer
    name := name
    image := image
    beds := beds
    description := description
    location := location
    price := price
    status := UsageStatus.Available
    booked_info := [] }

/-- Number of entries of an association list stored under a given key. -/
def countKey {V : Type} : List (String × V) → String → Nat
  | [], _ => 0
  | (k, _) :: rest, key => (if k = key then 1 else 0) + countKey rest key

/-- The keys of the Room Store are pairwise distinct (the abstract-map
property a `HashMap` maintains). -/
def RoomKeysNodup (s : Contract) : Prop :=
  (s.rooms_by_id.map Prod.fst).Nodup

/-- Every stored room is `Available` with an empty booking map. -/
def AllRoomsAvailable (s : Contract) : Prop :=
  ∀ p ∈ s.rooms_by_id,
    p.2.status = UsageStatus.Available ∧ p.2.booked_info = []

/-- A view call of `exists` as dispatched by the host: the method runs on a
shared reference (`&self`), so the state handed back to the host is the
incoming state together with the returned boolean. -/
def callExists (s : Contract) (owner_id room_name : String) : Contract × Bool :=
  (s, s.«exists» owner_id room_name)

/-- A view call of `get_rooms_registered_by_owner` as dispatched by the
host, on a shared reference (`&self`). -/
def callGetRooms (s : Contract) (owner_id : String) :
    Contract × Option (List RegisteredRoom) :=
  (s, s.get_rooms_registered_by_owner owner_id)

/-! ### Association-list lemmas -/

theorem lookupA_insertA_self {V : Type} (m : List (String × V)) (k : String) (v : V) :
    lookupA (insertA m k v) k = some v := by
  induction m with
  | nil => simp [insertA, lookupA]
  | cons p rest ih =>
      obtain ⟨k', v'⟩ := p
      by_cases h : k' = k
      · simp [insertA, lookupA, h]
      · simp [insertA, lookupA, h, ih]

theorem lookupA_insertA_ne {V : Type} (m : List (String × V)) (k key : String) (v : V)
    (h : k ≠ key) : lookupA (insertA m key v) k = lookupA m k := by
  induction m with
  | nil => simp [insertA, lookupA, Ne.symm h]
  | cons p rest ih =>
      obtain ⟨k', v'⟩ := p
      by_cases hk : k' = key
      · subst hk
        simp [insertA, lookupA, Ne.symm h]
      · by_cases hk2 : k' = k
        · simp [insertA, lookupA, hk, hk2, h]
        · simp [insertA, lookupA, hk, hk2, ih]

theorem isSome_lookupA_insertA {V : Type} (m : List (String × V)) (k key : String) (v : V)
    (h : (lookupA m k).isSome = true) :
    (lookupA (insertA m key v) k).isSome = true := by
  by_cases hk : k = key
  · subst hk; simp [lookupA_insertA_self]
  · rw [lookupA_insertA_ne m k key v hk]; exact h

theorem mem_insertA {V : Type} (m : List (String × V)) (k : String) (v : V)
    (p : String × V) (h : p ∈ insertA m k v) : p = (k, v) ∨ p ∈ m := by
  induction m with
  | nil => simpa [insertA] using h
  | cons q rest ih =>
      obtain ⟨k', v'⟩ := q
      by_cases hk : k' = k
      · simp only [insertA, if_pos hk, List.mem_cons] at h
        rcases h with h | h
        · exact Or.inl h
        · exact Or.inr (List.mem_cons_of_mem _ h)
      · simp only [insertA, if_neg hk, List.mem_cons] at h
        rcases h with h | h
        · exact Or.inr (by simp [h])
        · rcases ih h with h' | h'
          · exact Or.inl h'
          · exact Or.inr (List.mem_cons_of_mem _ h')

theorem lookupA_mem {V : Type} (m : List (String × V)) (k : String) (v : V)
    (h : lookupA m k = some v) : (k, v) ∈ m := by
  induction m with
  | nil => simp [lookupA] at h
  | cons p rest ih =>
      obtain ⟨k', v'⟩ := p
      by_cases hk : k' = k
      · subst hk
        simp [lookupA] at h
        subst h; exact List.mem_cons_self _ _
      · simp only [lookupA, if_neg hk] at h
        exact List.mem_cons_of_mem _ (ih h)

/-! ### Invariants of reachable states -/

theorem ownerIndexConsistent_default : OwnerIndexConsistent Contract.default := by
  intro owner rooms h
  simp [Contract.default, lookupA] at h

theorem rooms_by_id_add (s : Contract) (signer name image : String) (beds : Nat)
    (description location : String) (price : Nat) :
    (s.add_room_to_owner signer name image beds description location price).rooms_by_id
      = insertA s.rooms_by_id (roomIdOf signer name)
          (newRoom signer name image beds description location price) := rfl

theorem lookupA_rooms_per_owner_add (s : Contract) (signer name image : String)
    (beds : Nat) (description location : String) (price : Nat) (owner : AccountId) :
    lookupA (s.add_room_to_owner signer name image beds description location
        price).rooms_per_owner owner
      = if owner = signer then
          some ((lookupA s.rooms_per_owner signer).getD [] ++ [roomIdOf signer name])
        else lookupA s.rooms_per_owner owner := by
  simp only [Contract.add_room_to_owner]
  rcases hcase : lookupA s.rooms_per_owner signer with _ | prev
  · by_cases howner : owner = signer
    · subst howner
      simp [lookupA_insertA_self, hcase]
    · simp [howner, lookupA_insertA_ne _ _ _ _ howner]
  · by_cases howner : owner = signer
    · subst howner
      simp [lookupA_insertA_self, hcase]
    · simp [howner, lookupA_insertA_ne _ _ _ _ howner]

theorem ownerIndexConsistent_add (s : Contract) (hs : OwnerIndexConsistent s)
    (signer name image : String) (beds : Nat) (description location : String)
    (price : Nat) :
    OwnerIndexConsistent
      (s.add_room_to_owner signer name image beds description location price) := by
  intro owner rooms h room_id hroom
  rw [lookupA_rooms_per_owner_add] at h
  rw [rooms_by_id_add]
  by_cases howner : owner = signer
  · rw [if_pos howner] at h
    injection h with h
    subst h
    rcases List.mem_append.mp hroom with hmem | hmem
    · rcases hcase : lookupA s.rooms_per_owner signer with _ | prev
      · rw [hcase] at hmem; simp at hmem
      · rw [hcase] at hmem
        exact isSome_lookupA_insertA _ _ _ _ (hs signer prev hcase room_id hmem)
    · simp only [List.mem_singleton] at hmem
      subst hmem
      simp [lookupA_insertA_self]
  · rw [if_neg howner] at h
    exact isSome_lookupA_insertA _ _ _ _ (hs owner rooms h room_id hroom)

theorem ownerIndexConsistent_reachable (s : Contract) (h : Reachable s) :
    OwnerIndexConsistent s := by
  induction h with
  | default => exact ownerIndexConsistent_default
  | step s signer name image beds description location price _ ih =>
      exact ownerIndexConsistent_add s ih signer name image beds description location price

/-- If every identifier in the list resolves, the listing loop completes. -/
theorem projectRooms_isSome (m : List (RoomId × Room)) (l : List RoomId)
    (h : ∀ room_id ∈ l, (lookupA m room_id).isSome = true) :
    ∃ rs, projectRooms m l = some rs := by
  induction l with
  | nil => exact ⟨[], rfl⟩
  | cons x rest ih =>
      have hx := h x (List.mem_cons_self _ _)
      rcases hlook : lookupA m x with _ | room
      · rw [hlook] at hx; simp at hx
      · obtain ⟨rs, hrs⟩ := ih (fun r hr => h r (List.mem_cons_of_mem _ hr))
        exact ⟨toRegisteredRoom room :: rs, by simp [projectRooms, hlook, hrs]⟩

theorem keys_insertA_subset {V : Type} (m : List (String × V)) (k : String) (v : V)
    (x : String) (h : x ∈ (insertA m k v).map Prod.fst) :
    x = k ∨ x ∈ m.map Prod.fst := by
  rcases List.mem_map.mp h with ⟨p, hp, hx⟩
  rcases mem_insertA m k v p hp with rfl | hpm
  · exact Or.inl hx.symm
  · exact Or.inr (hx ▸ List.mem_map_of_mem Prod.fst hpm)

theorem nodup_keys_insertA {V : Type} (m : List (String × V)) (k : String) (v : V)
    (h : (m.map Prod.fst).Nodup) : ((insertA m k v).map Prod.fst).Nodup := by
  induction m with
  | nil => simp [insertA]
  | cons p rest ih =>
      obtain ⟨k', v'⟩ := p
      by_cases hk : k' = k
      · subst hk
        simpa [insertA] using h
      · simp only [insertA, if_neg hk, List.map_cons, List.nodup_cons] at h ⊢
        obtain ⟨hnotin, hrest⟩ := h
        refine ⟨?_, ih hrest⟩
        intro hmem
        rcases keys_insertA_subset rest k v k' hmem with h' | h'
        · exact hk h'
        · exact hnotin h'

theorem countKey_eq_zero {V : Type} (m : List (String × V)) (k : String)
    (h : k ∉ m.map Prod.fst) : countKey m k = 0 := by
  induction m with
  | nil => rfl
  | cons p rest ih =>
      obtain ⟨k', v'⟩ := p
      simp only [List.map_cons, List.mem_cons] at h
      push_neg at h
      simp [countKey, Ne.symm h.1, ih h.2]

theorem countKey_insertA_self {V : Type} (m : List (String × V)) (k : String) (v : V)
    (h : (m.map Prod.fst).Nodup) : countKey (insertA m k v) k = 1 := by
  induction m with
  | nil => simp [insertA, countKey]
  | cons p rest ih =>
      obtain ⟨k', v'⟩ := p
      simp only [List.map_cons, List.nodup_cons] at h
      by_cases hk : k' = k
      · subst hk
        simp [insertA, countKey, countKey_eq_zero rest k' h.1]
      · simp [insertA, hk, countKey, ih h.2]

theorem roomKeysNodup_reachable (s : Contract) (h : Reachable s) : RoomKeysNodup s := by
  induction h with
  | default => simp [RoomKeysNodup, Contract.default]
  | step s signer name image beds description location price _ ih =>
      rw [RoomKeysNodup, rooms_by_id_add]
      exact nodup_keys_insertA _ _ _ ih

theorem allRoomsAvailable_reachable (s : Contract) (h : Reachable s) :
    AllRoomsAvailable s := by
  induction h with
  | default => intro p hp; simp [Contract.default] at hp
  | step s signer name image beds description location price _ ih =>
      intro p hp
      rw [rooms_by_id_add] at hp
      rcases mem_insertA _ _ _ _ hp with rfl | hpm
      · simp [newRoom]
      · exact ih p hpm

theorem projectRooms_status (m : List (RoomId × Room)) (l : List RoomId)
    (rs : List RegisteredRoom)
    (hm : ∀ p ∈ m, p.2.status = UsageStatus.Available)
    (hl : projectRooms m l = some rs) :
    ∀ r ∈ rs, r.status = UsageStatus.Available := by
  induction l generalizing rs with
  | nil =>
      simp only [projectRooms, Option.some.injEq] at hl
      subst hl
      intro r hr
      simp at hr
  | cons x rest ih =>
      rcases hx : lookupA m x with _ | room
      · rw [projectRooms, hx] at hl
        simp at hl
      · rw [projectRooms, hx] at hl
        rcases hrest : projectRooms m rest with _ | rs'
        · rw [hrest] at hl; simp at hl
        · rw [hrest] at hl
          simp only [Option.some.injEq] at hl
          subst hl
          intro r hr
          rcases List.mem_cons.mp hr with rfl | hr'
          · have hroom := hm (x, room) (lookupA_mem m x room hx)
            simp only at hroom
            simp [toRegisteredRoom, hroom, cloneStatus]
          · exact ih rs' hrest r hr'

theorem projectRooms_append (m : List (RoomId × Room)) (a b : List RoomId) :
    projectRooms m (a ++ b)
      = (projectRooms m a).bind
          (fun x => (projectRooms m b).map (fun y => x ++ y)) := by
  induction a with
  | nil =>
      rcases hb : projectRooms m b with _ | rs
      · simp [projectRooms, hb]
      · simp [projectRooms, hb]
  | cons x a ih =>
      rcases hx : lookupA m x with _ | room
      · simp [projectRooms, hx]
      · rcases ha : projectRooms m a with _ | ra
        · rw [ha] at ih
          simp at ih
          simp [List.cons_append, projectRooms, hx, ih, ha]
        · rcases hb : projectRooms m b with _ | rb
          · rw [ha, hb] at ih
            simp at ih
            simp [List.cons_append, projectRooms, hx, ih, ha, hb]
          · rw [ha, hb] at ih
            simp at ih
            simp [List.cons_append, projectRooms, hx, ih, ha, hb]

theorem get_rooms_isSome_of_consistent (s : Contract) (h : OwnerIndexConsistent s)
    (owner : AccountId) :
    (s.get_rooms_registered_by_owner owner).isSome = true := by
  rw [Contract.get_rooms_registered_by_owner]
  rcases hcase : lookupA s.rooms_per_owner owner with _ | rooms
  · rfl
  · obtain ⟨rs, hrs⟩ := projectRooms_isSome s.rooms_by_id rooms (h owner rooms hcase)
    simp [hrs]

theorem exists_eq_lookup (s : Contract) (owner_id room_name : String) :
    s.«exists» owner_id room_name
      = (lookupA s.rooms_by_id (roomIdOf owner_id room_name)).isSome := rfl

/-! ### The claims -/

/-- C1: on every state reachable from the default state by
`add_room_to_owner` calls, every room identifier in any owner's Owner Index
list has a matching Room Store entry, and consequently
`get_rooms_registered_by_owner` never hits the fatal `ERR_NOT_FOUND_ROOM`
branch (its result is always `some`). -/
theorem owner_index_always_resolves (s : Contract) (h : Reachable s) :
    OwnerIndexConsistent s ∧
    ∀ owner : AccountId, (s.get_rooms_registered_by_owner owner).isSome = true := by
  have hc := ownerIndexConsistent_reachable s h
  exact ⟨hc, fun owner => get_rooms_isSome_of_consistent s hc owner⟩

theorem owner_index_always_resolves_witness :
    ((Contract.default.add_room_to_owner "alice" "sunset" "img" 2 "desc" "loc"
        100).get_rooms_registered_by_owner "alice").isSome = true :=
  (owner_index_always_resolves _
      (Reachable.step Contract.default "alice" "sunset" "img" 2 "desc" "loc" 100
        Reachable.default)).2 "alice"

/-- C2: after `add_room_to_owner` executed with signer `O` and room name
`N`, `exists O N` returns `true` on the resulting state. -/
theorem exists_after_add (s : Contract) (signer name image : String) (beds : Nat)
    (description location : String) (price : Nat) :
    (s.add_room_to_owner signer name image beds description location
        price).«exists» signer name = true := by
  rw [exists_eq_lookup, rooms_by_id_add, lookupA_insertA_self]
  rfl

/-- C8: an owner with no Owner Index entry gets the empty list back from
`get_rooms_registered_by_owner`, not an error. -/
theorem get_rooms_of_absent_owner (s : Contract) (owner : AccountId)
    (h : lookupA s.rooms_per_owner owner = none) :
    s.get_rooms_registered_by_owner owner = some [] := by
  rw [Contract.get_rooms_registered_by_owner, h]

theorem get_rooms_of_absent_owner_witness :
    Contract.default.get_rooms_registered_by_owner "alice" = some [] :=
  get_rooms_of_absent_owner Contract.default "alice" rfl

/-- C9: `exists` and `get_rooms_registered_by_owner` are read-only view
calls: the state they hand back to the host is the incoming state,
unchanged in both stores. -/
theorem view_calls_read_only (s : Contract) (o1 n1 o2 : String) :
    (callExists s o1 n1).1 = s ∧ (callGetRooms s o2).1 = s :=
  ⟨rfl, rfl⟩

/-- C10: `add_room_to_owner` with signer `S` and name `N` leaves every Room
Store entry under a key other than `S ++ N`, and every Owner Index entry of
every owner other than `S`, exactly unchanged. -/
theorem add_room_frame (s : Contract) (signer name image : String) (beds : Nat)
    (description location : String) (price : Nat) (k o : String)
    (hk : k ≠ roomIdOf signer name) (ho : o ≠ signer) :
    lookupA (s.add_room_to_owner signer name image beds description location
        price).rooms_by_id k = lookupA s.rooms_by_id k ∧
    lookupA (s.add_room_to_owner signer name image beds description location
        price).rooms_per_owner o = lookupA s.rooms_per_owner o := by
  constructor
  · rw [rooms_by_id_add]
    exact lookupA_insertA_ne _ _ _ _ hk
  · rw [lookupA_rooms_per_owner_add, if_neg ho]

theorem add_room_frame_witness :
    lookupA (Contract.default.add_room_to_owner "alice" "sunset" "img" 2 "desc"
        "loc" 100).rooms_by_id "bobroom"
      = lookupA Contract.default.rooms_by_id "bobroom" ∧
    lookupA (Contract.default.add_room_to_owner "alice" "sunset" "img" 2 "desc"
        "loc" 100).rooms_per_owner "bob"
      = lookupA Contract.default.rooms_per_owner "bob" :=
  add_room_frame Contract.default "alice" "sunset" "img" 2 "desc" "loc" 100
    "bobroom" "bob" (by decide) (by decide)

/-- C3 counterexample: the separator-free concatenation is not injective on
pairs: the distinct pairs `("ab", "cd")` and `("abc", "d")` derive the same
room identifier `"abcd"`. -/
theorem room_id_collision :
    roomIdOf "ab" "cd" = roomIdOf "abc" "d" ∧
    (("ab", "cd") : String × String) ≠ (("abc", "d") : String × String) := by
  constructor
  · rfl
  · decide

/-- C3 (amended): the derived identifier is injective on pairs whose owner
strings have equal length; in particular one owner never gets colliding
identifiers for two distinct room names. -/
theorem room_id_injective_of_owner_length (o1 n1 o2 n2 : String)
    (hlen : o1.length = o2.length) (hne : (o1, n1) ≠ (o2, n2)) :
    roomIdOf o1 n1 ≠ roomIdOf o2 n2 := by
  intro h
  apply hne
  have hdata : o1.data ++ n1.data = o2.data ++ n2.data := by
    have h' := congrArg String.data h
    rw [roomIdOf, roomIdOf, String.data_append, String.data_append] at h'
    exact h'
  have hlen' : o1.data.length = o2.data.length := hlen
  obtain ⟨h1, h2⟩ := List.append_inj hdata hlen'
  rw [String.ext h1, String.ext h2]

theorem room_id_injective_of_owner_length_witness :
    roomIdOf "aa" "x" ≠ roomIdOf "ab" "x" :=
  room_id_injective_of_owner_length "aa" "x" "ab" "x" (by decide) (by decide)

/-- C4 counterexample: owner `"abc"` never registered a room named `"d"` in
the one-call trace below, yet `exists "abc" "d"` returns `true` on the
resulting state, because the call by signer `"ab"` with name `"cd"` wrote
the Room Store entry with the colliding identifier `"abcd"`. -/
theorem exists_false_claim_counterexample :
    (∀ c ∈ [Call.mk "ab" "cd" "img" 1 "desc" "loc" 1],
        ¬ (c.signer = "abc" ∧ c.name = "d")) ∧
    (applyCalls Contract.default
        [Call.mk "ab" "cd" "img" 1 "desc" "loc" 1]).«exists» "abc" "d" = true := by
  constructor
  · decide
  · rfl

/-- C4 (amended): `exists O N` is `false` on any state built from the
default state by a trace of `add_room_to_owner` calls none of which derives
the identifier `O ++ N`; absent concatenation collisions this is exactly
"no registration of name `N` by owner `O` ever occurred". -/
theorem exists_false_of_never_registered (cs : List Call) (owner name : String)
    (h : ∀ c ∈ cs, roomIdOf c.signer c.name ≠ roomIdOf owner name) :
    (applyCalls Contract.default cs).«exists» owner name = false := by
  have aux : ∀ (cs' : List Call) (s : Contract),
      (∀ c ∈ cs', roomIdOf c.signer c.name ≠ roomIdOf owner name) →
      s.«exists» owner name = false →
      (applyCalls s cs').«exists» owner name = false := by
    intro cs'
    induction cs' with
    | nil => intro s _ hs; exact hs
    | cons c rest ih =>
        intro s hc hs
        have hstep : (applyCall s c).«exists» owner name = false := by
          rw [exists_eq_lookup, applyCall, rooms_by_id_add,
            lookupA_insertA_ne _ _ _ _
              (Ne.symm (hc c (List.mem_cons_self _ _)))]
          rw [exists_eq_lookup] at hs
          exact hs
        exact ih (applyCall s c)
          (fun c' hc' => hc c' (List.mem_cons_of_mem _ hc')) hstep
  exact aux cs Contract.default h rfl

theorem exists_false_of_never_registered_witness :
    (applyCalls Contract.default
        [Call.mk "ab" "cd" "img" 1 "desc" "loc" 1]).«exists» "zz" "q" = false :=
  exists_false_of_never_registered [Call.mk "ab" "cd" "img" 1 "desc" "loc" 1]
    "zz" "q" (by decide)

theorem roomIdOf_left_cancel (o a b : String) (h : roomIdOf o a = roomIdOf o b) :
    a = b := by
  have h' := congrArg String.data h
  rw [roomIdOf, roomIdOf, String.data_append, String.data_append] at h'
  exact String.ext (List.append_cancel_left h')

/-- C5: re-registering the same `(owner, name)` pair overwrites the Room
Store record (one entry, newest field values, no error), while the Owner
Index gains a second copy of the identifier, so the listing shows that room
twice, both occurrences with the newest field values. -/
theorem reregister_same_name (s : Contract) (h : Reachable s)
    (owner name i1 : String) (b1 : Nat) (d1 l1 : String) (p1 : Nat)
    (i2 : String) (b2 : Nat) (d2 l2 : String) (p2 : Nat) (s2 : Contract)
    (hs2 : s2 = (s.add_room_to_owner owner name i1 b1 d1 l1
        p1).add_room_to_owner owner name i2 b2 d2 l2 p2) :
    lookupA s2.rooms_by_id (roomIdOf owner name)
        = some (newRoom owner name i2 b2 d2 l2 p2) ∧
    countKey s2.rooms_by_id (roomIdOf owner name) = 1 ∧
    (∃ prev, lookupA s2.rooms_per_owner owner
        = some (prev ++ [roomIdOf owner name, roomIdOf owner name])) ∧
    (∃ prevProj, s2.get_rooms_registered_by_owner owner
        = some (prevProj ++ [toRegisteredRoom (newRoom owner name i2 b2 d2 l2 p2),
            toRegisteredRoom (newRoom owner name i2 b2 d2 l2 p2)])) := by
  subst hs2
  have hA : lookupA ((s.add_room_to_owner owner name i1 b1 d1 l1
        p1).add_room_to_owner owner name i2 b2 d2 l2 p2).rooms_by_id
      (roomIdOf owner name) = some (newRoom owner name i2 b2 d2 l2 p2) := by
    rw [rooms_by_id_add]
    exact lookupA_insertA_self _ _ _
  have hB : countKey ((s.add_room_to_owner owner name i1 b1 d1 l1
        p1).add_room_to_owner owner name i2 b2 d2 l2 p2).rooms_by_id
      (roomIdOf owner name) = 1 := by
    rw [rooms_by_id_add]
    apply countKey_insertA_self
    rw [rooms_by_id_add]
    exact nodup_keys_insertA _ _ _ (roomKeysNodup_reachable s h)
  have hC : lookupA ((s.add_room_to_owner owner name i1 b1 d1 l1
        p1).add_room_to_owner owner name i2 b2 d2 l2 p2).rooms_per_owner owner
      = some ((lookupA s.rooms_per_owner owner).getD []
          ++ [roomIdOf owner name, roomIdOf owner name]) := by
    rw [lookupA_rooms_per_owner_add, if_pos rfl, lookupA_rooms_per_owner_add,
      if_pos rfl]
    rw [Option.getD_some, List.append_assoc]
    rfl
  have hres : ∀ rid' ∈ (lookupA s.rooms_per_owner owner).getD [],
      (lookupA ((s.add_room_to_owner owner name i1 b1 d1 l1
          p1).add_room_to_owner owner name i2 b2 d2 l2 p2).rooms_by_id
        rid').isSome = true := by
    intro rid' hmem
    rcases hcase : lookupA s.rooms_per_owner owner with _ | l
    · rw [hcase] at hmem
      simp at hmem
    · rw [hcase, Option.getD_some] at hmem
      have h0 := ownerIndexConsistent_reachable s h owner l hcase rid' hmem
      rw [rooms_by_id_add, rooms_by_id_add]
      exact isSome_lookupA_insertA _ _ _ _ (isSome_lookupA_insertA _ _ _ _ h0)
  obtain ⟨pp, hpp⟩ := projectRooms_isSome _ _ hres
  refine ⟨hA, hB, ⟨_, hC⟩, ⟨pp, ?_⟩⟩
  have hG : ((s.add_room_to_owner owner name i1 b1 d1 l1
        p1).add_room_to_owner owner name i2 b2 d2 l2
        p2).get_rooms_registered_by_owner owner
      = projectRooms ((s.add_room_to_owner owner name i1 b1 d1 l1
          p1).add_room_to_owner owner name i2 b2 d2 l2 p2).rooms_by_id
        ((lookupA s.rooms_per_owner owner).getD []
          ++ [roomIdOf owner name, roomIdOf owner name]) := by
    rw [Contract.get_rooms_registered_by_owner, hC]
  rw [hG, projectRooms_append, hpp]
  simp [projectRooms, hA]

theorem reregister_same_name_witness :
    lookupA ((Contract.default.add_room_to_owner "alice" "sunset" "i1" 1 "d1"
        "l1" 10).add_room_to_owner "alice" "sunset" "i2" 2 "d2" "l2"
        20).rooms_by_id (roomIdOf "alice" "sunset")
      = some (newRoom "alice" "sunset" "i2" 2 "d2" "l2" 20) :=
  (reregister_same_name Contract.default Reachable.default "alice" "sunset"
    "i1" 1 "d1" "l1" 10 "i2" 2 "d2" "l2" 20 _ rfl).1

/-- C6: an owner with no prior Owner Index entry who registers two rooms
with distinct names gets back exactly their two projections, in
registration order; the projection keeps name, image, beds, description,
location, price and status and drops the owner identifier and booking
map. -/
theorem list_two_rooms (s : Contract) (owner n1 n2 : String)
    (hO : lookupA s.rooms_per_owner owner = none) (hN : n1 ≠ n2)
    (i1 : String) (b1 : Nat) (d1 l1 : String) (p1 : Nat)
    (i2 : String) (b2 : Nat) (d2 l2 : String) (p2 : Nat) (s2 : Contract)
    (hs2 : s2 = (s.add_room_to_owner owner n1 i1 b1 d1 l1
        p1).add_room_to_owner owner n2 i2 b2 d2 l2 p2) :
    s2.get_rooms_registered_by_owner owner =
      some [{ name := n1, image := i1, beds := b1, description := d1,
              location := l1, price := p1, status := UsageStatus.Available },
            { name := n2, image := i2, beds := b2, description := d2,
              location := l2, price := p2, status := UsageStatus.Available }] := by
  subst hs2
  have hid : roomIdOf owner n1 ≠ roomIdOf owner n2 :=
    fun hEq => hN (roomIdOf_left_cancel owner n1 n2 hEq)
  have hidx : lookupA ((s.add_room_to_owner owner n1 i1 b1 d1 l1
        p1).add_room_to_owner owner n2 i2 b2 d2 l2 p2).rooms_per_owner owner
      = some [roomIdOf owner n1, roomIdOf owner n2] := by
    rw [lookupA_rooms_per_owner_add, if_pos rfl, lookupA_rooms_per_owner_add,
      if_pos rfl, hO]
    rfl
  have h1 : lookupA ((s.add_room_to_owner owner n1 i1 b1 d1 l1
        p1).add_room_to_owner owner n2 i2 b2 d2 l2 p2).rooms_by_id
      (roomIdOf owner n1) = some (newRoom owner n1 i1 b1 d1 l1 p1) := by
    rw [rooms_by_id_add, rooms_by_id_add, lookupA_insertA_ne _ _ _ _ hid]
    exact lookupA_insertA_self _ _ _
  have h2 : lookupA ((s.add_room_to_owner owner n1 i1 b1 d1 l1
        p1).add_room_to_owner owner n2 i2 b2 d2 l2 p2).rooms_by_id
      (roomIdOf owner n2) = some (newRoom owner n2 i2 b2 d2 l2 p2) := by
    rw [rooms_by_id_add]
    exact lookupA_insertA_self _ _ _
  rw [Contract.get_rooms_registered_by_owner, hidx]
  simp [projectRooms, h1, h2, toRegisteredRoom, newRoom, cloneStatus]

theorem list_two_rooms_witness :
    ((Contract.default.add_room_to_owner "alice" "suite" "i1" 1 "d1" "l1"
        10).add_room_to_owner "alice" "loft" "i2" 2 "d2" "l2"
        20).get_rooms_registered_by_owner "alice" =
      some [{ name := "suite", image := "i1", beds := 1, description := "d1",
              location := "l1", price := 10, status := UsageStatus.Available },
            { name := "loft", image := "i2", beds := 2, description := "d2",
              location := "l2", price := 20, status := UsageStatus.Available }] :=
  list_two_rooms Contract.default "alice" "suite" "loft" rfl (by decide)
    "i1" 1 "d1" "l1" 10 "i2" 2 "d2" "l2" 20 _ rfl

/-- C7: on every reachable state every Room Store entry has status
`Available` and an empty booking map, and every `RegisteredRoom` returned
by `get_rooms_registered_by_owner` has status `Available`. -/
theorem rooms_always_available (s : Contract) (h : Reachable s) :
    AllRoomsAvailable s ∧
    ∀ (owner : AccountId) (l : List RegisteredRoom),
      s.get_rooms_registered_by_owner owner = some l →
      ∀ r ∈ l, r.status = UsageStatus.Available := by
  have hav := allRoomsAvailable_reachable s h
  refine ⟨hav, ?_⟩
  intro owner l hl r hr
  rcases hcase : lookupA s.rooms_per_owner owner with _ | rooms
  · have h8 : s.get_rooms_registered_by_owner owner = some [] := by
      rw [Contract.get_rooms_registered_by_owner, hcase]
    rw [h8] at hl
    injection hl with hl
    subst hl
    simp at hr
  · have h9 : s.get_rooms_registered_by_owner owner
        = projectRooms s.rooms_by_id rooms := by
      rw [Contract.get_rooms_registered_by_owner, hcase]
    rw [h9] at hl
    exact projectRooms_status _ _ _ (fun p hp => (hav p hp).1) hl r hr

theorem rooms_always_available_witness :
    ({ name := "sunset", image := "img", beds := 2, description := "desc",
       location := "loc", price := 100,
       status := UsageStatus.Available } : RegisteredRoom).status
      = UsageStatus.Available :=
  (rooms_always_available _
      (Reachable.step Contract.default "alice" "sunset" "img" 2 "desc" "loc"
        100 Reachable.default)).2 "alice"
    [{ name := "sunset", image := "img", beds := 2, description := "desc",
       location := "loc", price := 100, status := UsageStatus.Available }]
    (by rfl) _ (List.mem_singleton_self _)

end NearBooking
